import Mathlib

/-!
# Verification of the MSK topic-resource reconciliation controller

Shallow embedding of the Go sources of `amazon-msk-topic-resource`:
the desired-state model (`types/topic_info.go`), the user/permission diff
engine and config diff (`admin/cmd_update.go`), the delete command
(`admin/cmd_delete.go`), the create command and response adapter
(`admin/integrations.go`, `admin/handler.go`), the KMS key resolver
(`admin/kms_key_resolver.go`) and the naming scheme (`admin/handler.go`
helpers, backed by SHA-256 and unpadded standard base32).

Go maps are modelled as association lists where assignment appends an
entry and lookup takes the *last* matching entry (so an overwrite is an
append that shadows earlier entries); `*string` values are modelled as
`Option String` with `none` standing for a nil pointer, and a nil
dereference makes the surrounding function return `none`.  Collaborator
calls (Kafka admin, Secrets Manager, KMS, MSK) are modelled by
environments recording each call's outcome, and commands return the
ordered trace of mutating operations they issued.
-/

namespace MskTr

/-- `types.Permission`: the two values `READ` / `WRITE`. -/
inductive Permission where
  | read
  | write
deriving DecidableEq, Repr

/-- `types.DeletionPolicy`: `DELETE` / `RETAIN`. -/
inductive DeletionPolicy where
  | delete
  | retain
deriving DecidableEq, Repr

/-- `types.User`: username, optional external-principal Arn (empty string
means absent, as in Go), and permission list. -/
structure User where
  username : String
  arn : String
  permissions : List Permission
deriving DecidableEq, Repr

/-- `types.TopicInfo`: the validated desired state.  `config` models the Go
`map[string]*string` as an association list whose values are `Option String`
(`none` = nil pointer). -/
structure TopicInfo where
  name : String
  partitions : Nat
  replicationFactor : Nat
  clusterArn : String
  config : List (String × Option String)
  users : List User
  deletionPolicy : DeletionPolicy
deriving DecidableEq, Repr

/-- Building a Go `map[string]*types.User` keyed by `Username` and reading it
back: the last user in the list with the given username wins (later
assignments overwrite earlier ones). -/
def indexUsers : List User → String → Option User
  | [], _ => none
  | u :: rest, k =>
    match indexUsers rest k with
    | some v => some v
    | none => if u.username = k then some u else none

/-- `admin.userDiff`: the four output collections of the diff engine.  The
two permission maps are association lists (append models map assignment; all
claims only read key presence and values, which agree with Go map
semantics). -/
structure UserDiff where
  addedUsers : List User
  addedPermissions : List (String × List Permission)
  deletedPermissions : List (String × List Permission)
  deletedUsers : List User
deriving DecidableEq, Repr

/-- `admin.newUserDiff` with no options: all four collections empty. -/
def newUserDiff : UserDiff :=
  { addedUsers := [], addedPermissions := [], deletedPermissions := [], deletedUsers := [] }

/-- One iteration of the first loop of `cmdUpdate.diffUsers` (the loop over
`old.Users`): permission set differences via the labelled `aa`/`aaa` loops,
then the Arn-change full-replace check. -/
def diffUsersOldStep (newUsers : List User) (d : UserDiff) (o : User) : UserDiff :=
  match indexUsers newUsers o.username with
  | some n =>
    let deletedPermissions := o.permissions.filter (fun op => ¬ n.permissions.contains op)
    let d :=
      if deletedPermissions ≠ [] then
        { d with deletedPermissions := d.deletedPermissions ++ [(o.username, deletedPermissions)] }
      else d
    let addedPermissions := n.permissions.filter (fun np => ¬ o.permissions.contains np)
    let d :=
      if addedPermissions ≠ [] then
        { d with addedPermissions := d.addedPermissions ++ [(o.username, addedPermissions)] }
      else d
    if o.arn ≠ n.arn then
      { d with addedUsers := d.addedUsers ++ [n], deletedUsers := d.deletedUsers ++ [o] }
    else d
  | none => { d with deletedUsers := d.deletedUsers ++ [o] }

/-- The first loop of `cmdUpdate.diffUsers` over `old.Users`. -/
def diffUsersOldLoop (newUsers : List User) (d : UserDiff) : List User → UserDiff
  | [] => d
  | o :: rest => diffUsersOldLoop newUsers (diffUsersOldStep newUsers d o) rest

/-- The second loop of `cmdUpdate.diffUsers` over `new.Users`: users absent
from the old index are additions. -/
def diffUsersNewLoop (oldUsers : List User) (d : UserDiff) : List User → UserDiff
  | [] => d
  | u :: rest =>
    match indexUsers oldUsers u.username with
    | some _ => diffUsersNewLoop oldUsers d rest
    | none =>
        diffUsersNewLoop oldUsers { d with addedUsers := d.addedUsers ++ [u] } rest

/-- `cmdUpdate.diffUsers` (admin/cmd_update.go): index both user lists by
username, compute per-user permission set differences, treat an Arn change as
a full replace, and collect pure additions/deletions.  (The Go `topic` string
parameter is unused by the function body and omitted here.) -/
def diffUsers (old new : TopicInfo) : UserDiff :=
  diffUsersNewLoop old.users (diffUsersOldLoop new.users newUserDiff old.users) new.users

/-- The three `kadm.AlterConfigOp` operations used by `diffConfig`. -/
inductive AlterOp where
  | set
  | append
  | delete
deriving DecidableEq, Repr

/-- `kadm.AlterConfig`: operation, key name and (pointer-valued) value. -/
structure AlterConfig where
  op : AlterOp
  name : String
  value : Option String
deriving DecidableEq, Repr

/-- Go map read `m[k]` on an association-list model: the last entry with the
given key wins (assignment = append that shadows earlier entries); `none`
when the key is absent. -/
def lookupMap {α : Type} : List (String × α) → String → Option α
  | [], _ => none
  | e :: rest, k =>
    match lookupMap rest k with
    | some v => some v
    | none => if e.1 = k then some e.2 else none

/-- First loop of `cmdUpdate.diffConfig` over the `new` desired config: keys
present in `current` with a different value become `SetConfig`, keys absent
from `current` become `AppendConfig`.  The comparison `*nv != *cv`
dereferences both pointers; a nil pointer makes the whole computation `none`
(the Go code would panic). -/
def diffConfigNewLoop (current : List (String × Option String)) :
    List (String × Option String) → Option (List AlterConfig)
  | [] => some []
  | (k, nv) :: rest =>
    match lookupMap current k with
    | some cv =>
      match nv, cv with
      | some nvv, some cvv =>
        (diffConfigNewLoop current rest).map fun tail =>
          if nvv ≠ cvv then AlterConfig.mk .set k nv :: tail else tail
      | _, _ => none
    | none =>
      (diffConfigNewLoop current rest).map fun tail => AlterConfig.mk .append k nv :: tail

/-- Second loop of `cmdUpdate.diffConfig` over the `old` desired config:
keys absent from `new` become `DeleteConfig`, unless they are present in
`current` with a value different from the old desired value, in which case
the delete is skipped (logged in Go).  `*ov != *cv` dereferences both
pointers; nil yields `none`. -/
def diffConfigOldLoop (newCfg current : List (String × Option String)) :
    List (String × Option String) → Option (List AlterConfig)
  | [] => some []
  | (k, ov) :: rest =>
    match lookupMap newCfg k with
    | some _ => diffConfigOldLoop newCfg current rest
    | none =>
      match lookupMap current k with
      | some cv =>
        match ov, cv with
        | some ovv, some cvv =>
          if ovv ≠ cvv then diffConfigOldLoop newCfg current rest
          else
            (diffConfigOldLoop newCfg current rest).map
              fun tail => AlterConfig.mk .delete k ov :: tail
        | _, _ => none
      | none =>
        (diffConfigOldLoop newCfg current rest).map
          fun tail => AlterConfig.mk .delete k ov :: tail

/-- `cmdUpdate.diffConfig` (admin/cmd_update.go): three-way diff of the new
desired config against the old desired config and the cluster's current
config (`DescribeTopicConfigs` output, given here as the entry list from
which Go builds the `current` map).  The final logging loop dereferences
every update's `Value` pointer (`*u.Value`), so a nil value in any emitted
update also yields `none` (a Go panic). -/
def diffConfig (newCfg old currentCfgs : List (String × Option String)) :
    Option (List AlterConfig) := do
  let a ← diffConfigNewLoop currentCfgs newCfg
  let b ← diffConfigOldLoop newCfg currentCfgs old
  let updates := a ++ b
  if updates.all (fun u => u.value.isSome) then some updates else none

/-! ## Naming scheme (admin/handler.go helpers)

`shortStackID` is `sha256.Sum256` of the stack id's UTF-8 bytes, encoded with
unpadded standard base32 and truncated to the first 8 characters.  SHA-256
(FIPS 180-4, as implemented by Go's `crypto/sha256`) and unpadded standard
base32 (RFC 4648, Go's `encoding/base32` `StdEncoding`) are implemented here
over byte lists, bytes and 32-bit words being `Nat`s reduced mod `2^8` /
`2^32`. -/

/-- Truncate to a 32-bit word. -/
def w32 (x : Nat) : Nat := x % 4294967296

/-- Right-rotation of a 32-bit word. -/
def rotr32 (n x : Nat) : Nat := w32 ((x >>> n) ||| (x <<< (32 - n)))

/-- SHA-256 small sigma 0. -/
def sSig0 (x : Nat) : Nat := (rotr32 7 x) ^^^ (rotr32 18 x) ^^^ (x >>> 3)

/-- SHA-256 small sigma 1. -/
def sSig1 (x : Nat) : Nat := (rotr32 17 x) ^^^ (rotr32 19 x) ^^^ (x >>> 10)

/-- SHA-256 big sigma 0. -/
def bSig0 (x : Nat) : Nat := (rotr32 2 x) ^^^ (rotr32 13 x) ^^^ (rotr32 22 x)

/-- SHA-256 big sigma 1. -/
def bSig1 (x : Nat) : Nat := (rotr32 6 x) ^^^ (rotr32 11 x) ^^^ (rotr32 25 x)

/-- The 64 SHA-256 round constants. -/
def sha256K : Array Nat := #[
  1116352408, 1899447441, 3049323471, 3921009573, 961987163, 1508970993,
  2453635748, 2870763221, 3624381080, 310598401, 607225278, 1426881987,
  1925078388, 2162078206, 2614888103, 3248222580, 3835390401, 4022224774,
  264347078, 604807628, 770255983, 1249150122, 1555081692, 1996064986,
  2554220882, 2821834349, 2952996808, 3210313671, 3336571891, 3584528711,
  113926993, 338241895, 666307205, 773529912, 1294757372, 1396182291,
  1695183700, 1986661051, 2177026350, 2456956037, 2730485921, 2820302411,
  3259730800, 3345764771, 3516065817, 3600352804, 4094571909, 275423344,
  430227734, 506948616, 659060556, 883997877, 958139571, 1322822218,
  1537002063, 1747873779, 1955562222, 2024104815, 2227730452, 2361852424,
  2428436474, 2756734187, 3204031479, 3329325298]

/-- SHA-256 initial hash state. -/
def sha256H0 : Array Nat := #[
  1779033703, 3144134277, 1013904242, 2773480762,
  1359893119, 2600822924, 528734635, 1541459225]

/-- `n`-byte big-endian encoding of a value. -/
def beBytes (n v : Nat) : List Nat :=
  (List.range n).map fun i => (v >>> ((n - 1 - i) * 8)) % 256

/-- SHA-256 message padding: `0x80`, zeros, then the 8-byte big-endian bit
length, reaching a multiple of 64 bytes. -/
def sha256Pad (msg : List Nat) : List Nat :=
  let len := msg.length
  let zeros := (120 - ((len + 1) % 64)) % 64
  msg ++ [0x80] ++ List.replicate zeros 0 ++ beBytes 8 (len * 8)

/-- Group a byte list into big-endian 32-bit words. -/
def bytesToWords : List Nat → List Nat
  | b0 :: b1 :: b2 :: b3 :: rest =>
    (((b0 * 256 + b1) * 256 + b2) * 256 + b3) :: bytesToWords rest
  | _ => []

/-- Split a word list into 16-word blocks (structural recursion; a padded
SHA-256 message always splits into full blocks, a short remainder becomes a
final partial block). -/
def chunks16 : List Nat → List (List Nat)
  | [] => []
  | a0 :: a1 :: a2 :: a3 :: a4 :: a5 :: a6 :: a7 ::
      a8 :: a9 :: a10 :: a11 :: a12 :: a13 :: a14 :: a15 :: rest =>
    [a0, a1, a2, a3, a4, a5, a6, a7, a8, a9, a10, a11, a12, a13, a14, a15] ::
      chunks16 rest
  | l => [l]

/-- Expand a 16-word block into the 64-word SHA-256 message schedule. -/
def sha256Schedule (block : List Nat) : Array Nat :=
  (List.range 48).foldl
    (fun w i =>
      w.push (w32 (sSig1 (w.getD (i + 14) 0) + w.getD (i + 9) 0 +
        sSig0 (w.getD (i + 1) 0) + w.getD i 0)))
    block.toArray

/-- One SHA-256 compression round on the 8-word working state. -/
def sha256Round (k w : Nat) (s : Array Nat) : Array Nat :=
  let a := s.getD 0 0
  let b := s.getD 1 0
  let c := s.getD 2 0
  let d := s.getD 3 0
  let e := s.getD 4 0
  let f := s.getD 5 0
  let g := s.getD 6 0
  let h := s.getD 7 0
  let ch := (e &&& f) ^^^ ((4294967295 ^^^ e) &&& g)
  let maj := (a &&& b) ^^^ (a &&& c) ^^^ (b &&& c)
  let t1 := w32 (h + bSig1 e + ch + k + w)
  let t2 := w32 (bSig0 a + maj)
  #[w32 (t1 + t2), a, b, c, w32 (d + t1), e, f, g]

/-- SHA-256 compression of one block into the running hash state. -/
def sha256Compress (H : Array Nat) (block : List Nat) : Array Nat :=
  let w := sha256Schedule block
  let s := (List.range 64).foldl
    (fun s i => sha256Round (sha256K.getD i 0) (w.getD i 0) s) H
  (Array.range 8).map fun i => w32 (H.getD i 0 + s.getD i 0)

/-- SHA-256 digest (32 bytes) of a byte list. -/
def sha256 (msg : List Nat) : List Nat :=
  let blocks := chunks16 (bytesToWords (sha256Pad msg))
  let H := blocks.foldl sha256Compress sha256H0
  (H.toList.map (beBytes 4)).flatten

/-- The standard base32 alphabet. -/
def base32Alphabet : List Char :=
  ['A','B','C','D','E','F','G','H','I','J','K','L','M','N','O','P','Q','R','S',
   'T','U','V','W','X','Y','Z','2','3','4','5','6','7']

/-- Encode one group of 1–5 bytes as unpadded base32 characters. -/
def base32Chunk (bs : List Nat) : List Char :=
  let bits := bs.length * 8
  let outLen := (bits + 4) / 5
  let v := (bs.foldl (fun acc b => acc * 256 + b) 0) <<< (outLen * 5 - bits)
  (List.range outLen).map fun i => base32Alphabet.getD ((v >>> ((outLen - 1 - i) * 5)) % 32) 'A'

/-- Unpadded standard base32 encoding of a byte list (RFC 4648, Go's
`base32.StdEncoding.WithPadding(NoPadding)`): full 5-byte groups, then one
final partial group. -/
def base32Encode : List Nat → List Char
  | [] => []
  | b0 :: b1 :: b2 :: b3 :: b4 :: rest =>
    base32Chunk [b0, b1, b2, b3, b4] ++ base32Encode rest
  | bs => base32Chunk bs

/-- UTF-8 encoding of one character (Go `[]byte(string)` semantics). -/
def utf8Char (c : Char) : List Nat :=
  let n := c.toNat
  if n < 0x80 then [n]
  else if n < 0x800 then [0xC0 ||| (n >>> 6), 0x80 ||| (n % 64)]
  else if n < 0x10000 then
    [0xE0 ||| (n >>> 12), 0x80 ||| ((n >>> 6) % 64), 0x80 ||| (n % 64)]
  else
    [0xF0 ||| (n >>> 18), 0x80 ||| ((n >>> 12) % 64),
     0x80 ||| ((n >>> 6) % 64), 0x80 ||| (n % 64)]

/-- UTF-8 bytes of a string (Go `[]byte(stackID)`). -/
def utf8Bytes (s : String) : List Nat :=
  (s.data.map utf8Char).flatten

/-- `admin.shortStackID` (admin/handler.go): the first 8 characters of the
unpadded standard base32 encoding of the SHA-256 digest of the stack id
(Go slices the first 8 bytes of the encoded string; base32 output is ASCII,
so this is the first 8 characters). -/
def shortStackID (stackID : String) : String :=
  String.mk ((base32Encode (sha256 (utf8Bytes stackID))).take 8)

/-- `admin.canonicalTopicName`: `fmt.Sprintf("%s-%s", name, shortStackID)`. -/
def canonicalTopicName (name short : String) : String :=
  name ++ "-" ++ short

/-- `admin.canonicalUsername`: `fmt.Sprintf("AmazonMSK_%s_%s", username, shortStackID)`. -/
def canonicalUsername (username short : String) : String :=
  "AmazonMSK_" ++ username ++ "_" ++ short

/-! ## KMS key resolver (admin/kms_key_resolver.go) -/

/-- The required cluster tag name (`admin.TagKmsKey`). -/
def TagKmsKey : String := "TR-KMS-KEY"

/-- The fatal error produced when the tag is missing (the `fmt.Errorf` in
`kmsKeyResolver.Resolve`, with `%s` substituted). -/
def kmsKeyMissingMsg : String :=
  "MSK cluster must have a tag named " ++ TagKmsKey ++
  " specifying the ARN of KMS key used for encrypting SASL/SCRAM credentials."

/-- Environment for `kmsKeyResolver.Resolve`: the outcome of the single
`DescribeCluster` call it may make (error, or the cluster's tag map). -/
structure ResolverEnv where
  describeCluster : Except String (List (String × String))

/-- `kmsKeyResolver.Resolve`: when the desired state has users, describe the
cluster and read the `TR-KMS-KEY` tag (missing tag is a fatal error); with no
users, return the empty key without any cluster call.  The `Bool` records
whether `DescribeCluster` was called. -/
def kmsKeyResolve (env : ResolverEnv) (info : TopicInfo) : Bool × Except String String :=
  if info.users.length > 0 then
    match env.describeCluster with
    | .error e => (true, .error e)
    | .ok tags =>
      match lookupMap tags TagKmsKey with
      | some k => (true, .ok k)
      | none => (true, .error kmsKeyMissingMsg)
  else (false, .ok "")

/-! ## The update command (admin/cmd_update.go, `cmdUpdate.Run`) -/

/-- The mutating operations (and the settling delay) issued by
`cmdUpdate.Run`, in invocation order. -/
inductive UpdateEvent where
  | alterConfigs (cfgs : List AlterConfig)
  | deleteUser (u : User)
  | delay
  | createUser (u : User)
  | createACLs (username : String) (ps : List Permission)
  | deleteACLs (username : String) (ps : List Permission)
deriving DecidableEq, Repr

/-- Outcome of the `ListTopics` lookup for the canonical topic name. -/
inductive TopicLookup where
  | absent
  | errUnknown
  | errOther (msg : String)
  | found (partitions replicationFactor : Nat)
deriving DecidableEq, Repr

/-- Cluster-reported partition count (`len(Partitions.Numbers())`) and
replication factor (`Partitions.NumReplicas()`); the zero value of
`kadm.TopicDetail` reports 0/0 when the topic is absent from the map. -/
def topicCounts : TopicLookup → Nat × Nat
  | .found p r => (p, r)
  | _ => (0, 0)

/-- Environment of collaborator outcomes for one `cmdUpdate.Run` invocation.
`Option String` outcomes are `none` on success and `some msg` on error. -/
structure UpdateEnv where
  listTopics : Except String TopicLookup
  resolve : Except String String
  describeConfigs : Except String (List (String × Option String))
  alterConfigs : Except String Unit
  deleteUser : User → Option String
  createUser : User → Option String
  createACLs : String → List Permission → Option String
  deleteACLs : String → List Permission → Option String

/-- Result of a command: the ordered trace of operations issued, and the
error returned (`none` = success). -/
structure RunResult where
  trace : List UpdateEvent
  error : Option String
deriving DecidableEq, Repr

/-- Run one group of per-user operations in list order, stopping at the
first failure (the failing call is still issued). -/
def runOps {α ε : Type} (ev : α → ε) (out : α → Option String) :
    List α → List ε × Option String
  | [] => ([], none)
  | x :: rest =>
    match out x with
    | none =>
      let (tr, e) := runOps ev out rest
      (ev x :: tr, e)
    | some msg => ([ev x], some msg)

/-- `cmdUpdate.Run` (admin/cmd_update.go): look up the topic, reject
rename-while-unknown and partition/replication-factor mismatches, resolve the
KMS key, diff and alter the config, then apply the user diff in strict order:
deletes, settling delay (only if any user was deleted), creates, ACL grants,
ACL revokes.  A nil-pointer panic inside `diffConfig` is reported as an
error with an empty trace. -/
def runUpdate (env : UpdateEnv) (old new : TopicInfo) : RunResult :=
  match env.listTopics with
  | .error e => ⟨[], some e⟩
  | .ok lookup =>
    match lookup with
    | .errUnknown =>
      if old.name ≠ new.name then ⟨[], some "cannot update Name and ClusterArn properties"⟩
      else ⟨[], some "unknown topic or partition"⟩
    | .errOther msg => ⟨[], some msg⟩
    | _ =>
      if (topicCounts lookup).1 ≠ new.partitions then ⟨[], some "Cannot update Partitions"⟩
      else if (topicCounts lookup).2 ≠ new.replicationFactor then
        ⟨[], some "Cannot update ReplicationFactor"⟩
      else
        match env.resolve with
        | .error e => ⟨[], some e⟩
        | .ok _ =>
          match env.describeConfigs with
          | .error e => ⟨[], some e⟩
          | .ok currentCfgs =>
            match diffConfig new.config old.config currentCfgs with
            | none => ⟨[], some "panic: invalid memory address or nil pointer dereference"⟩
            | some cdiff =>
              let (tr0, e0) :=
                if cdiff.isEmpty then ([], none)
                else
                  match env.alterConfigs with
                  | .ok _ => ([UpdateEvent.alterConfigs cdiff], none)
                  | .error e => ([UpdateEvent.alterConfigs cdiff], some e)
              match e0 with
              | some e => ⟨tr0, some e⟩
              | none =>
                let udiff := diffUsers old new
                let (tr1, e1) := runOps UpdateEvent.deleteUser env.deleteUser udiff.deletedUsers
                match e1 with
                | some e => ⟨tr0 ++ tr1, some e⟩
                | none =>
                  let tr2 := if udiff.deletedUsers.isEmpty then [] else [UpdateEvent.delay]
                  let (tr3, e3) := runOps UpdateEvent.createUser env.createUser udiff.addedUsers
                  match e3 with
                  | some e => ⟨tr0 ++ tr1 ++ tr2 ++ tr3, some e⟩
                  | none =>
                    let (tr4, e4) := runOps (fun p => UpdateEvent.createACLs p.1 p.2)
                      (fun p => env.createACLs p.1 p.2) udiff.addedPermissions
                    match e4 with
                    | some e => ⟨tr0 ++ tr1 ++ tr2 ++ tr3 ++ tr4, some e⟩
                    | none =>
                      let (tr5, e5) := runOps (fun p => UpdateEvent.deleteACLs p.1 p.2)
                        (fun p => env.deleteACLs p.1 p.2) udiff.deletedPermissions
                      ⟨tr0 ++ tr1 ++ tr2 ++ tr3 ++ tr4 ++ tr5, e5⟩

/-! ## The delete command (admin/cmd_delete.go, `cmdDelete.Run`) -/

/-- The operations issued by `cmdDelete.Run`. -/
inductive DeleteEvent where
  | deleteUser (u : User)
  | deleteTopics
deriving DecidableEq, Repr

/-- Per-topic outcome inside a successful `DeleteTopics` response. -/
inductive DeleteTopicsResponse where
  | missing
  | ok
  | errUnknown
  | errOther (msg : String)
deriving DecidableEq, Repr

/-- Environment of collaborator outcomes for one `cmdDelete.Run` invocation. -/
structure DeleteEnv where
  resolve : Except String String
  deleteUser : User → Option String
  deleteTopics : Except String DeleteTopicsResponse

/-- Result of the delete command. -/
structure DeleteRunResult where
  trace : List DeleteEvent
  error : Option String
deriving DecidableEq, Repr

/-- `cmdDelete.Run` (admin/cmd_delete.go): resolve the key, delete every
user in the desired state, then stop if `DeletionPolicy` is `Retain`;
otherwise delete the topic, absorbing an unknown-topic response (and a
missing response entry) as already-deleted success. -/
def runDelete (env : DeleteEnv) (info : TopicInfo) : DeleteRunResult :=
  match env.resolve with
  | .error e => ⟨[], some e⟩
  | .ok _ =>
    let (tr, e) := runOps DeleteEvent.deleteUser env.deleteUser info.users
    match e with
    | some msg => ⟨tr, some msg⟩
    | none =>
      if info.deletionPolicy = DeletionPolicy.retain then ⟨tr, none⟩
      else
        match env.deleteTopics with
        | .error e => ⟨tr ++ [DeleteEvent.deleteTopics], some e⟩
        | .ok resp =>
          match resp with
          | .errOther msg => ⟨tr ++ [DeleteEvent.deleteTopics], some msg⟩
          | _ => ⟨tr ++ [DeleteEvent.deleteTopics], none⟩

/-! ## Desired-state validation (types/topic_info.go, `NewTopicInfo`)

The inbound property map is an untyped JSON object.  `NewTopicInfo`
marshals it and validates it against the embedded JSON schema
(`topicInfoSchema`) with gojsonschema; on failure it returns a single error
joining every violation message with a space, and on success it unmarshals
into a typed `TopicInfo` (with `DeletionPolicy` defaulting to `RETAIN`).
The validator below implements that fixed schema; the violation-message
formats are the gojsonschema ones pinned by the repository's own test
(`types.TestNewTopicInfo`). -/

/-- Untyped JSON values as they appear in CloudFormation resource
properties. -/
inductive JVal where
  | null
  | str (s : String)
  | arr (xs : List JVal)
  | obj (fields : List (String × JVal))

/-- JSON type name of a value, as used in type-violation messages. -/
def jTypeName : JVal → String
  | .null => "null"
  | .str _ => "string"
  | .arr _ => "array"
  | .obj _ => "object"

/-- The schema's required top-level fields, in schema order. -/
def requiredFields : List String :=
  ["ServiceToken", "Name", "Partitions", "ReplicationFactor", "ClusterArn"]

/-- The top-level properties admitted by the schema
(`additionalProperties: false`). -/
def allowedFields : List String :=
  requiredFields ++ ["Config", "Users", "DeletionPolicy"]

/-- The schema pattern `^[0-9]*$` for Partitions/ReplicationFactor. -/
def numericPattern (s : String) : Bool :=
  s.data.all fun c => c.isDigit

/-- Violations for a plain string-typed property. -/
def checkStrField (props : List (String × JVal)) (f : String) : List String :=
  match lookupMap props f with
  | none => []
  | some (.str _) => []
  | some v => [f ++ ": Invalid type. Expected: string, given: " ++ jTypeName v]

/-- Violations for a numeric-string property (`pattern: ^[0-9]*$`). -/
def checkPatternField (props : List (String × JVal)) (f : String) : List String :=
  match lookupMap props f with
  | none => []
  | some (.str s) =>
    if numericPattern s then []
    else [f ++ ": Does not match pattern \x27^[0-9]*$\x27"]
  | some v => [f ++ ": Invalid type. Expected: string, given: " ++ jTypeName v]

/-- Violations for the `DeletionPolicy` enum. -/
def checkDeletionPolicy (props : List (String × JVal)) : List String :=
  match lookupMap props "DeletionPolicy" with
  | none => []
  | some (.str s) =>
    if s = "DELETE" ∨ s = "RETAIN" then []
    else ["DeletionPolicy: DeletionPolicy must be one of the following: \"DELETE\", \"RETAIN\""]
  | some v => ["DeletionPolicy: Invalid type. Expected: string, given: " ++ jTypeName v]

/-- Violations for one entry of a user's `Permissions` array. -/
def checkPermissionItem (path : String) (v : JVal) : List String :=
  match v with
  | .str s =>
    if s = "READ" ∨ s = "WRITE" then []
    else [path ++ ": " ++ path ++ " must be one of the following: \"READ\", \"WRITE\""]
  | _ => [path ++ ": Invalid type. Expected: string, given: " ++ jTypeName v]

/-- Violations for one entry of the `Users` array against the `User`
sub-schema (required `Username`/`Permissions`, optional string `Arn`,
`additionalProperties: false`). -/
def checkUser (i : Nat) (v : JVal) : List String :=
  let path := "Users." ++ toString i
  match v with
  | .obj fs =>
    (if (lookupMap fs "Username").isNone then [path ++ ": Username is required"] else []) ++
    (if (lookupMap fs "Permissions").isNone then [path ++ ": Permissions is required"] else []) ++
    checkStrField fs "Username" ++
    checkStrField fs "Arn" ++
    (match lookupMap fs "Permissions" with
     | none => []
     | some (.arr xs) =>
       (xs.enum.map fun e =>
         checkPermissionItem (path ++ ".Permissions." ++ toString e.1) e.2).flatten
     | some v =>
       [path ++ ".Permissions: Invalid type. Expected: array, given: " ++ jTypeName v]) ++
    (fs.filterMap fun e =>
      if e.1 = "Username" ∨ e.1 = "Arn" ∨ e.1 = "Permissions" then none
      else some (path ++ ": Additional property " ++ e.1 ++ " is not allowed"))
  | _ => [path ++ ": Invalid type. Expected: object, given: " ++ jTypeName v]

/-- Violations for the `Users` array. -/
def checkUsers (props : List (String × JVal)) : List String :=
  match lookupMap props "Users" with
  | none => []
  | some (.arr xs) => (xs.enum.map fun e => checkUser e.1 e.2).flatten
  | some v => ["Users: Invalid type. Expected: array, given: " ++ jTypeName v]

/-- Violations for the `Config` object (`additionalProperties: true`: any
member values are admitted). -/
def checkConfig (props : List (String × JVal)) : List String :=
  match lookupMap props "Config" with
  | none => []
  | some (.obj _) => []
  | some v => ["Config: Invalid type. Expected: object, given: " ++ jTypeName v]

/-- All schema violations of a property map, in schema order: required
fields first, then per-property checks, then root `additionalProperties`. -/
def validateTopicInfo (props : List (String × JVal)) : List String :=
  (requiredFields.filterMap fun f =>
    if (lookupMap props f).isNone then some ("(root): " ++ f ++ " is required") else none) ++
  checkStrField props "ServiceToken" ++
  checkStrField props "Name" ++
  checkPatternField props "Partitions" ++
  checkPatternField props "ReplicationFactor" ++
  checkStrField props "ClusterArn" ++
  checkConfig props ++
  checkUsers props ++
  checkDeletionPolicy props ++
  (props.filterMap fun e =>
    if allowedFields.contains e.1 then none
    else some ("(root): Additional property " ++ e.1 ++ " is not allowed"))

/-- Digit-string parsing as performed by the `json:",string"` coercion on a
pattern-valid value: empty or non-numeric strings fail. -/
def parseDigits (s : String) : Option Nat :=
  if s.data.isEmpty then none
  else if s.data.all Char.isDigit then
    some (s.data.foldl (fun a c => a * 10 + (c.toNat - 48)) 0)
  else none

/-- One permission value on the already-validated path. -/
def parsePermission : JVal → Permission
  | .str "WRITE" => Permission.write
  | _ => Permission.read

/-- A string field's value, defaulting to the Go zero value `""`. -/
def getStr (fs : List (String × JVal)) (f : String) : String :=
  match lookupMap fs f with
  | some (.str s) => s
  | _ => ""

/-- One user on the already-validated path. -/
def parseUser : JVal → User
  | .obj fs =>
    { username := getStr fs "Username"
      arn := getStr fs "Arn"
      permissions :=
        match lookupMap fs "Permissions" with
        | some (.arr xs) => xs.map parsePermission
        | _ => [] }
  | _ => { username := "", arn := "", permissions := [] }

/-- A `Config` member unmarshalled into `*string`: JSON `null` becomes a nil
pointer; a non-string, non-null value is a `json.Unmarshal` error. -/
def parseConfigVal : JVal → Except String (Option String)
  | .str s => .ok (some s)
  | .null => .ok none
  | _ => .error "json: cannot unmarshal value into Go struct field TopicInfo.Config of type string"

/-- `json.Unmarshal` into `TopicInfo` (with the `DeletionPolicy: Retain`
default preset), on a schema-valid document.  `Partitions` and
`ReplicationFactor` use the `json:",string"` coercion, which fails on an
empty string. -/
def unmarshalTopicInfo (props : List (String × JVal)) : Except String TopicInfo := do
  let parseNumeric := fun (f : String) =>
    match lookupMap props f with
    | some (.str s) =>
      match parseDigits s with
      | some n => Except.ok n
      | none => Except.error ("json: invalid number literal in " ++ f)
    | _ => Except.ok 0
  let partitions ← parseNumeric "Partitions"
  let replicationFactor ← parseNumeric "ReplicationFactor"
  let config ←
    match lookupMap props "Config" with
    | some (.obj fs) => fs.mapM fun e => (parseConfigVal e.2).map fun v => (e.1, v)
    | _ => .ok []
  return {
    name := getStr props "Name"
    partitions := partitions
    replicationFactor := replicationFactor
    clusterArn := getStr props "ClusterArn"
    config := config
    users :=
      match lookupMap props "Users" with
      | some (.arr xs) => xs.map parseUser
      | _ => []
    deletionPolicy :=
      match lookupMap props "DeletionPolicy" with
      | some (.str "DELETE") => DeletionPolicy.delete
      | _ => DeletionPolicy.retain }

/-- `types.NewTopicInfo`: validate against the schema; on failure return one
error joining every violation with a space, otherwise unmarshal. -/
def NewTopicInfo (props : List (String × JVal)) : Except String TopicInfo :=
  let msgs := validateTopicInfo props
  if msgs.isEmpty then unmarshalTopicInfo props
  else .error (String.intercalate " " msgs)

/-! ## The create command and response adapter
(admin/integrations.go `cmdCreate.Run`, admin/handler.go `Handler.create`) -/

/-- Outcome of the `CreateTopic` call. -/
inductive CreateTopicOutcome where
  | ok
  | errAlreadyExists
  | errOther (msg : String)
deriving DecidableEq, Repr

/-- Environment for one `Handler.create` invocation: the UUID generated at
the top of `Handler.create` and the collaborator outcomes. -/
structure CreateEnv where
  freshID : String
  newClient : Except String Unit
  resolve : Except String String
  createTopic : CreateTopicOutcome
  createUser : User → Option String

/-- First failure among per-user operations run in list order. -/
def firstError {α : Type} (out : α → Option String) : List α → Option String
  | [] => none
  | x :: rest =>
    match out x with
    | some e => some e
    | none => firstError out rest

/-- `cmdCreate.Run` (admin/integrations.go): resolve the key, create the
topic (tolerating `TopicAlreadyExists`), create each user in list order, and
return the canonical topic name as `PhysicalResourceID` together with the
short stack id as `UsernameSuffix`. -/
def cmdCreateRun (env : CreateEnv) (info : TopicInfo) (stackID : String) :
    Except String (String × String) :=
  match env.resolve with
  | .error e => .error e
  | .ok _ =>
    let short := shortStackID stackID
    let topicName := canonicalTopicName info.name short
    match env.createTopic with
    | .errOther msg => .error msg
    | _ =>
      match firstError env.createUser info.users with
      | some e => .error e
      | none => .ok (topicName, short)

/-- `Handler.create` (admin/handler.go): parse and validate the properties,
build clients, run the create command; the response is
`(PhysicalResourceID, output properties, error)`, where the pre-generated
UUID is used as `PhysicalResourceID` on every failure path and the output
properties carry `UsernameSuffix` on success. -/
def handlerCreate (env : CreateEnv) (props : List (String × JVal)) (stackID : String) :
    String × List (String × String) × Option String :=
  match NewTopicInfo props with
  | .error e => (env.freshID, [], some e)
  | .ok ti =>
    match env.newClient with
    | .error e => (env.freshID, [], some e)
    | .ok _ =>
      match cmdCreateRun env ti stackID with
      | .error e => (env.freshID, [], some e)
      | .ok (rid, suffix) => (rid, [("UsernameSuffix", suffix)], none)

/-! ## Characterization of the user diff loops -/

/-- Per-old-user contribution to `DeletedUsers`. -/
def oldStepDeletedU (newUsers : List User) (o : User) : List User :=
  match indexUsers newUsers o.username with
  | some n => if o.arn ≠ n.arn then [o] else []
  | none => [o]

/-- Per-old-user contribution to `AddedUsers`. -/
def oldStepAddedU (newUsers : List User) (o : User) : List User :=
  match indexUsers newUsers o.username with
  | some n => if o.arn ≠ n.arn then [n] else []
  | none => []

/-- Per-old-user contribution to `DeletedPermissions`. -/
def oldStepDeletedP (newUsers : List User) (o : User) : List (String × List Permission) :=
  match indexUsers newUsers o.username with
  | some n =>
    let dp := o.permissions.filter (fun op => ¬ n.permissions.contains op)
    if dp ≠ [] then [(o.username, dp)] else []
  | none => []

/-- Per-old-user contribution to `AddedPermissions`. -/
def oldStepAddedP (newUsers : List User) (o : User) : List (String × List Permission) :=
  match indexUsers newUsers o.username with
  | some n =>
    let ap := n.permissions.filter (fun np => ¬ o.permissions.contains np)
    if ap ≠ [] then [(o.username, ap)] else []
  | none => []

/-- Per-new-user contribution to `AddedUsers` from the second loop. -/
def newStepAddedU (oldUsers : List User) (u : User) : List User :=
  match indexUsers oldUsers u.username with
  | some _ => []
  | none => [u]

theorem diffUsersOldStep_eq (nu : List User) (d : UserDiff) (o : User) :
    diffUsersOldStep nu d o =
      { addedUsers := d.addedUsers ++ oldStepAddedU nu o
        addedPermissions := d.addedPermissions ++ oldStepAddedP nu o
        deletedPermissions := d.deletedPermissions ++ oldStepDeletedP nu o
        deletedUsers := d.deletedUsers ++ oldStepDeletedU nu o } := by
  unfold diffUsersOldStep oldStepAddedU oldStepAddedP oldStepDeletedP oldStepDeletedU
  cases h : indexUsers nu o.username with
  | none => simp
  | some n =>
    dsimp only
    split_ifs <;> simp

theorem diffUsersOldLoop_eq (nu : List User) (d : UserDiff) (olds : List User) :
    diffUsersOldLoop nu d olds =
      { addedUsers := d.addedUsers ++ olds.flatMap (oldStepAddedU nu)
        addedPermissions := d.addedPermissions ++ olds.flatMap (oldStepAddedP nu)
        deletedPermissions := d.deletedPermissions ++ olds.flatMap (oldStepDeletedP nu)
        deletedUsers := d.deletedUsers ++ olds.flatMap (oldStepDeletedU nu) } := by
  induction olds generalizing d with
  | nil => simp [diffUsersOldLoop]
  | cons o rest ih =>
    rw [diffUsersOldLoop, diffUsersOldStep_eq, ih]
    simp [List.append_assoc]

theorem diffUsersNewLoop_eq (ou : List User) (d : UserDiff) (news : List User) :
    diffUsersNewLoop ou d news =
      { d with addedUsers := d.addedUsers ++ news.flatMap (newStepAddedU ou) } := by
  induction news generalizing d with
  | nil => simp [diffUsersNewLoop]
  | cons u rest ih =>
    rw [diffUsersNewLoop]
    cases h : indexUsers ou u.username <;>
      simp [ih, newStepAddedU, h, List.append_assoc]

theorem diffUsers_eq (old new : TopicInfo) :
    diffUsers old new =
      { addedUsers := old.users.flatMap (oldStepAddedU new.users) ++
          new.users.flatMap (newStepAddedU old.users)
        addedPermissions := old.users.flatMap (oldStepAddedP new.users)
        deletedPermissions := old.users.flatMap (oldStepDeletedP new.users)
        deletedUsers := old.users.flatMap (oldStepDeletedU new.users) } := by
  rw [diffUsers, diffUsersOldLoop_eq, diffUsersNewLoop_eq]
  simp [newUserDiff]

/-! ### Lookup lemmas for the username index -/

theorem indexUsers_eq_none (us : List User) (k : String)
    (h : ∀ x ∈ us, x.username ≠ k) : indexUsers us k = none := by
  induction us with
  | nil => rfl
  | cons u rest ih =>
    rw [indexUsers, ih (fun x hx => h x (List.mem_cons_of_mem u hx))]
    simp [h u (List.mem_cons_self u rest)]

theorem indexUsers_eq_some_of_mem {us : List User} {n : User}
    (hnodup : (us.map User.username).Nodup) (hmem : n ∈ us) :
    indexUsers us n.username = some n := by
  induction us with
  | nil => cases hmem
  | cons u rest ih =>
    simp only [List.map_cons, List.nodup_cons, List.mem_map] at hnodup
    rcases List.mem_cons.mp hmem with rfl | hmem'
    · have hnone : indexUsers rest n.username = none := by
        apply indexUsers_eq_none
        intro x hx heq
        exact hnodup.1 ⟨x, hx, heq⟩
      rw [indexUsers, hnone]
      simp
    · rw [indexUsers, ih hnodup.2 hmem']

theorem mem_of_indexUsers_eq_some {us : List User} {k : String} {v : User}
    (h : indexUsers us k = some v) : v ∈ us ∧ v.username = k := by
  induction us with
  | nil => cases h
  | cons u rest ih =>
    rw [indexUsers] at h
    cases hrest : indexUsers rest k with
    | some w =>
      rw [hrest] at h
      cases h
      rcases ih hrest with ⟨hmem, hname⟩
      exact ⟨List.mem_cons_of_mem u hmem, hname⟩
    | none =>
      rw [hrest] at h
      by_cases hk : u.username = k
      · simp [hk] at h
        exact ⟨by rw [← h]; exact List.mem_cons_self u rest, by rw [← h]; exact hk⟩
      · simp [hk] at h

theorem username_inj_of_nodup {us : List User} {a b : User}
    (hnodup : (us.map User.username).Nodup) (ha : a ∈ us) (hb : b ∈ us)
    (h : a.username = b.username) : a = b :=
  List.inj_on_of_nodup_map hnodup ha hb h

theorem oldStepAddedP_mem {nu : List User} {o : User} {e : String × List Permission}
    (h : e ∈ oldStepAddedP nu o) :
    ∃ n, indexUsers nu o.username = some n ∧
      e = (o.username, n.permissions.filter (fun np => ¬ o.permissions.contains np)) := by
  unfold oldStepAddedP at h
  cases hidx : indexUsers nu o.username with
  | none => rw [hidx] at h; cases h
  | some n =>
    rw [hidx] at h
    dsimp only at h
    split at h
    · exact ⟨n, rfl, List.mem_singleton.mp h⟩
    · cases h

theorem oldStepDeletedP_mem {nu : List User} {o : User} {e : String × List Permission}
    (h : e ∈ oldStepDeletedP nu o) :
    ∃ n, indexUsers nu o.username = some n ∧
      e = (o.username, o.permissions.filter (fun op => ¬ n.permissions.contains op)) := by
  unfold oldStepDeletedP at h
  cases hidx : indexUsers nu o.username with
  | none => rw [hidx] at h; cases h
  | some n =>
    rw [hidx] at h
    dsimp only at h
    split at h
    · exact ⟨n, rfl, List.mem_singleton.mp h⟩
    · cases h

/-- C1 (amended): when a username appears in both user lists (unique by
username on each side, the data model's invariant) and its Arn differs
between old and new, `diffUsers` places the new version in `AddedUsers` and
the old version in `DeletedUsers`; the fine-grained permission diff is *not*
overridden — it is still recorded — but when the user's permission set is
unchanged there is no `AddedPermissions`/`DeletedPermissions` entry for that
username. -/
theorem diffUsers_arnChange_fullReplace (old new : TopicInfo) (o n : User)
    (hnodupOld : (old.users.map User.username).Nodup)
    (hnodupNew : (new.users.map User.username).Nodup)
    (ho : o ∈ old.users) (hn : n ∈ new.users)
    (hname : o.username = n.username) (harn : o.arn ≠ n.arn) :
    n ∈ (diffUsers old new).addedUsers ∧ o ∈ (diffUsers old new).deletedUsers ∧
      ((∀ p, p ∈ o.permissions ↔ p ∈ n.permissions) →
        (∀ e ∈ (diffUsers old new).addedPermissions, e.1 ≠ o.username) ∧
        (∀ e ∈ (diffUsers old new).deletedPermissions, e.1 ≠ o.username)) := by
  have hidx : indexUsers new.users o.username = some n := by
    rw [hname]; exact indexUsers_eq_some_of_mem hnodupNew hn
  rw [diffUsers_eq]
  refine ⟨?_, ?_, ?_⟩
  · exact List.mem_append_left _
      (List.mem_flatMap.mpr ⟨o, ho, by simp [oldStepAddedU, hidx, harn]⟩)
  · exact List.mem_flatMap.mpr ⟨o, ho, by simp [oldStepDeletedU, hidx, harn]⟩
  · intro hperm
    constructor
    · intro e he heq
      rcases List.mem_flatMap.mp he with ⟨o', ho', he'⟩
      rcases oldStepAddedP_mem he' with ⟨n', hidx', hev⟩
      have husr : o'.username = o.username := by rw [hev] at heq; exact heq
      have ho'o : o' = o := username_inj_of_nodup hnodupOld ho' ho husr
      rw [ho'o] at he' hidx'
      rw [hidx] at hidx'
      cases hidx'
      have hap : n.permissions.filter (fun np => ¬ o.permissions.contains np) = [] := by
        apply List.filter_eq_nil_iff.mpr
        intro a ha
        simp [(hperm a).mpr ha]
      unfold oldStepAddedP at he'
      rw [hidx] at he'
      dsimp only at he'
      rw [hap] at he'
      simp at he'
    · intro e he heq
      rcases List.mem_flatMap.mp he with ⟨o', ho', he'⟩
      rcases oldStepDeletedP_mem he' with ⟨n', hidx', hev⟩
      have husr : o'.username = o.username := by rw [hev] at heq; exact heq
      have ho'o : o' = o := username_inj_of_nodup hnodupOld ho' ho husr
      rw [ho'o] at he' hidx'
      rw [hidx] at hidx'
      cases hidx'
      have hdp : o.permissions.filter (fun op => ¬ n.permissions.contains op) = [] := by
        apply List.filter_eq_nil_iff.mpr
        intro a ha
        simp [(hperm a).mp ha]
      unfold oldStepDeletedP at he'
      rw [hidx] at he'
      dsimp only at he'
      rw [hdp] at he'
      simp at he'

/-- Old desired state with user `u`, Arn `arn1`, permissions `[READ]`. -/
def tiUserA : TopicInfo :=
  { name := "t", partitions := 1, replicationFactor := 1, clusterArn := "c",
    config := [], users := [{ username := "u", arn := "arn1", permissions := [Permission.read] }],
    deletionPolicy := DeletionPolicy.retain }

/-- New desired state with user `u`, Arn `arn2`, permissions `[READ, WRITE]`:
the Arn *and* the permission set changed. -/
def tiUserB : TopicInfo :=
  { name := "t", partitions := 1, replicationFactor := 1, clusterArn := "c",
    config := [],
    users := [{ username := "u", arn := "arn2", permissions := [Permission.read, Permission.write] }],
    deletionPolicy := DeletionPolicy.retain }

/-- New desired state with user `u`, Arn `arn2`, permissions `[READ]`: only
the Arn changed. -/
def tiUserC : TopicInfo :=
  { name := "t", partitions := 1, replicationFactor := 1, clusterArn := "c",
    config := [], users := [{ username := "u", arn := "arn2", permissions := [Permission.read] }],
    deletionPolicy := DeletionPolicy.retain }

/-- C1 counterexample: user `u` changes Arn (`arn1` → `arn2`) *and* gains the
WRITE permission.  `diffUsers` places the user in both `AddedUsers` and
`DeletedUsers`, but `AddedPermissions` still carries the entry
`("u", [WRITE])` — the Arn-change full replace does not override the
fine-grained permission diff, contradicting the claim that
`AddedPermissions`/`DeletedPermissions` contain no entry for that
username whenever the Arn differs. -/
theorem diffUsers_arnChange_counterexample :
    diffUsers tiUserA tiUserB =
      { addedUsers := [User.mk "u" "arn2" [Permission.read, Permission.write]]
        addedPermissions := [("u", [Permission.write])]
        deletedPermissions := []
        deletedUsers := [User.mk "u" "arn1" [Permission.read]] } ∧
    "arn1" ≠ "arn2" := by
  exact ⟨by decide, by decide⟩

/-- Witness for `diffUsers_arnChange_fullReplace` at a pair where only the
Arn of user `u` changes. -/
theorem diffUsers_arnChange_fullReplace_witness :
    ({ username := "u", arn := "arn2", permissions := [Permission.read] } : User) ∈
        (diffUsers tiUserA tiUserC).addedUsers ∧
    ({ username := "u", arn := "arn1", permissions := [Permission.read] } : User) ∈
        (diffUsers tiUserA tiUserC).deletedUsers ∧
      ((∀ p, p ∈ ({ username := "u", arn := "arn1", permissions := [Permission.read] } : User).permissions ↔
          p ∈ ({ username := "u", arn := "arn2", permissions := [Permission.read] } : User).permissions) →
        (∀ e ∈ (diffUsers tiUserA tiUserC).addedPermissions, e.1 ≠ "u") ∧
        (∀ e ∈ (diffUsers tiUserA tiUserC).deletedPermissions, e.1 ≠ "u")) :=
  diffUsers_arnChange_fullReplace tiUserA tiUserC
    { username := "u", arn := "arn1", permissions := [Permission.read] }
    { username := "u", arn := "arn2", permissions := [Permission.read] }
    (by decide) (by decide) (by decide) (by decide) rfl (by decide)

/-! ## Characterization of the config diff -/

/-- Every value in the config map is a non-nil pointer. -/
@[reducible] def allSomeVals (m : List (String × Option String)) : Prop :=
  ∀ e ∈ m, e.2.isSome = true

/-- Per-new-entry contribution of the first `diffConfig` loop. -/
def newLoopSpec (current : List (String × Option String)) (e : String × Option String) :
    List AlterConfig :=
  match lookupMap current e.1 with
  | some cv => if e.2 ≠ cv then [AlterConfig.mk .set e.1 e.2] else []
  | none => [AlterConfig.mk .append e.1 e.2]

/-- Per-old-entry contribution of the second `diffConfig` loop. -/
def oldLoopSpec (newCfg current : List (String × Option String)) (e : String × Option String) :
    List AlterConfig :=
  match lookupMap newCfg e.1 with
  | some _ => []
  | none =>
    match lookupMap current e.1 with
    | some cv => if e.2 ≠ cv then [] else [AlterConfig.mk .delete e.1 e.2]
    | none => [AlterConfig.mk .delete e.1 e.2]

theorem lookupMap_prop {α : Type} {p : α → Prop} {m : List (String × α)} {k : String} {v : α}
    (h : ∀ e ∈ m, p e.2) (hl : lookupMap m k = some v) : p v := by
  induction m with
  | nil => cases hl
  | cons e rest ih =>
    rw [lookupMap] at hl
    cases hrest : lookupMap rest k with
    | some w =>
      rw [hrest] at hl
      cases hl
      exact ih (fun x hx => h x (List.mem_cons_of_mem e hx)) hrest
    | none =>
      rw [hrest] at hl
      by_cases hk : e.1 = k
      · simp only [hk, if_pos rfl] at hl
        cases hl
        exact h e (List.mem_cons_self e rest)
      · simp [hk] at hl

theorem lookupMap_isSome {m : List (String × Option String)} {k : String} {v : Option String}
    (h : allSomeVals m) (hl : lookupMap m k = some v) : v.isSome = true :=
  @lookupMap_prop (Option String) (fun x => x.isSome = true) m k v h hl

theorem mem_of_lookupMap {α : Type} {m : List (String × α)} {k : String} {v : α}
    (hl : lookupMap m k = some v) : (k, v) ∈ m := by
  induction m with
  | nil => cases hl
  | cons e rest ih =>
    rw [lookupMap] at hl
    cases hrest : lookupMap rest k with
    | some w =>
      rw [hrest] at hl
      cases hl
      exact List.mem_cons_of_mem e (ih hrest)
    | none =>
      rw [hrest] at hl
      by_cases hk : e.1 = k
      · simp only [hk, if_pos rfl] at hl
        cases hl
        exact List.mem_cons.mpr (Or.inl (by rw [← hk]))
      · simp [hk] at hl

theorem lookupMap_eq_none {α : Type} (m : List (String × α)) (k : String)
    (h : ∀ e ∈ m, e.1 ≠ k) : lookupMap m k = none := by
  induction m with
  | nil => rfl
  | cons e rest ih =>
    rw [lookupMap, ih (fun x hx => h x (List.mem_cons_of_mem e hx))]
    simp [h e (List.mem_cons_self e rest)]

theorem ne_of_lookupMap_eq_none {α : Type} {m : List (String × α)} {k : String}
    (h : lookupMap m k = none) : ∀ e ∈ m, e.1 ≠ k := by
  induction m with
  | nil => intro e he; cases he
  | cons e rest ih =>
    rw [lookupMap] at h
    cases hrest : lookupMap rest k with
    | some w => rw [hrest] at h; cases h
    | none =>
      rw [hrest] at h
      intro x hx
      rcases List.mem_cons.mp hx with rfl | hx'
      · intro hk
        simp [hk] at h
      · exact ih hrest x hx'

theorem lookupMap_eq_some_of_mem {α : Type} {m : List (String × α)} {k : String} {v : α}
    (hnodup : (m.map Prod.fst).Nodup) (hmem : (k, v) ∈ m) : lookupMap m k = some v := by
  induction m with
  | nil => cases hmem
  | cons e rest ih =>
    simp only [List.map_cons, List.nodup_cons, List.mem_map] at hnodup
    rcases List.mem_cons.mp hmem with rfl | hmem'
    · have hnone : lookupMap rest k = none := by
        apply lookupMap_eq_none
        intro x hx heq
        exact hnodup.1 ⟨x, hx, heq⟩
      rw [lookupMap, hnone]
      simp
    · rw [lookupMap, ih hnodup.2 hmem']

theorem diffConfigNewLoop_eq {current newCfg : List (String × Option String)}
    (hnew : allSomeVals newCfg) (hcur : allSomeVals current) :
    diffConfigNewLoop current newCfg = some (newCfg.flatMap (newLoopSpec current)) := by
  induction newCfg with
  | nil => rfl
  | cons e rest ih =>
    have htail := ih fun x hx => hnew x (List.mem_cons_of_mem e hx)
    obtain ⟨k, nv⟩ := e
    have hnv : nv.isSome = true := hnew (k, nv) (List.mem_cons_self _ rest)
    rw [List.flatMap_cons, diffConfigNewLoop]
    cases hcv : lookupMap current k with
    | some cv =>
      have hcvs : cv.isSome = true := lookupMap_isSome hcur hcv
      obtain ⟨nvv, rfl⟩ := Option.isSome_iff_exists.mp hnv
      obtain ⟨cvv, rfl⟩ := Option.isSome_iff_exists.mp hcvs
      rw [htail]
      by_cases h : nvv = cvv <;> simp [newLoopSpec, hcv, h]
    | none =>
      rw [htail]
      simp [newLoopSpec, hcv]

theorem diffConfigOldLoop_eq {newCfg current old : List (String × Option String)}
    (hold : allSomeVals old) (hcur : allSomeVals current) :
    diffConfigOldLoop newCfg current old = some (old.flatMap (oldLoopSpec newCfg current)) := by
  induction old with
  | nil => rfl
  | cons e rest ih =>
    have htail := ih fun x hx => hold x (List.mem_cons_of_mem e hx)
    obtain ⟨k, ov⟩ := e
    have hov : ov.isSome = true := hold (k, ov) (List.mem_cons_self _ rest)
    rw [List.flatMap_cons, diffConfigOldLoop]
    cases hnk : lookupMap newCfg k with
    | some w =>
      rw [htail]
      simp [oldLoopSpec, hnk]
    | none =>
      cases hcv : lookupMap current k with
      | some cv =>
        have hcvs : cv.isSome = true := lookupMap_isSome hcur hcv
        obtain ⟨ovv, rfl⟩ := Option.isSome_iff_exists.mp hov
        obtain ⟨cvv, rfl⟩ := Option.isSome_iff_exists.mp hcvs
        dsimp only
        by_cases h : ovv = cvv
        · rw [if_neg (by simp [h]), htail]
          simp [oldLoopSpec, hnk, hcv, h]
        · rw [if_pos (by simp [h]), htail]
          simp [oldLoopSpec, hnk, hcv, h]
      | none =>
        rw [htail]
        simp [oldLoopSpec, hnk, hcv]

theorem mem_newLoopSpec_value {current : List (String × Option String)}
    {e : String × Option String} {u : AlterConfig} (h : u ∈ newLoopSpec current e) :
    u.value = e.2 := by
  unfold newLoopSpec at h
  cases hcv : lookupMap current e.1 with
  | some cv =>
    rw [hcv] at h
    dsimp only at h
    by_cases hne : e.2 = cv
    · rw [if_neg (by simp [hne])] at h
      cases h
    · rw [if_pos (by simp [hne])] at h
      rw [List.mem_singleton.mp h]
  | none =>
    rw [hcv] at h
    dsimp only at h
    rw [List.mem_singleton.mp h]

theorem mem_oldLoopSpec_value {newCfg current : List (String × Option String)}
    {e : String × Option String} {u : AlterConfig} (h : u ∈ oldLoopSpec newCfg current e) :
    u.value = e.2 := by
  unfold oldLoopSpec at h
  cases hnk : lookupMap newCfg e.1 with
  | some w => rw [hnk] at h; cases h
  | none =>
    rw [hnk] at h
    dsimp only at h
    cases hcv : lookupMap current e.1 with
    | some cv =>
      rw [hcv] at h
      dsimp only at h
      by_cases hne : e.2 = cv
      · rw [if_neg (by simp [hne])] at h
        rw [List.mem_singleton.mp h]
      · rw [if_pos (by simp [hne])] at h
        cases h
    | none =>
      rw [hcv] at h
      dsimp only at h
      rw [List.mem_singleton.mp h]

theorem diffConfig_eq {newCfg old cur : List (String × Option String)}
    (hnew : allSomeVals newCfg) (hold : allSomeVals old) (hcur : allSomeVals cur) :
    diffConfig newCfg old cur =
      some (newCfg.flatMap (newLoopSpec cur) ++ old.flatMap (oldLoopSpec newCfg cur)) := by
  unfold diffConfig
  rw [diffConfigNewLoop_eq hnew hcur, diffConfigOldLoop_eq hold hcur]
  have hall : ∀ u ∈ newCfg.flatMap (newLoopSpec cur) ++ old.flatMap (oldLoopSpec newCfg cur),
      u.value.isSome = true := by
    intro u hu
    rcases List.mem_append.mp hu with h | h
    · rcases List.mem_flatMap.mp h with ⟨e, he, hue⟩
      rw [mem_newLoopSpec_value hue]
      exact hnew e he
    · rcases List.mem_flatMap.mp h with ⟨e, he, hue⟩
      rw [mem_oldLoopSpec_value hue]
      exact hold e he
  simp only [Option.pure_def, Option.bind_eq_bind, Option.some_bind]
  rw [if_pos (List.all_eq_true.mpr hall)]

theorem mem_newLoopSpec {current : List (String × Option String)}
    {e : String × Option String} {u : AlterConfig} :
    u ∈ newLoopSpec current e ↔
      (u = AlterConfig.mk .append e.1 e.2 ∧ lookupMap current e.1 = none) ∨
      (∃ cv, u = AlterConfig.mk .set e.1 e.2 ∧ lookupMap current e.1 = some cv ∧ e.2 ≠ cv) := by
  unfold newLoopSpec
  cases hcv : lookupMap current e.1 with
  | none => simp
  | some cv =>
    dsimp only
    by_cases hne : e.2 = cv
    · rw [if_neg (by simp [hne])]
      simp [hne]
    · rw [if_pos (by simp [hne])]
      simp [hne]

theorem mem_oldLoopSpec {newCfg current : List (String × Option String)}
    {e : String × Option String} {u : AlterConfig} :
    u ∈ oldLoopSpec newCfg current e ↔
      (u = AlterConfig.mk .delete e.1 e.2 ∧ lookupMap newCfg e.1 = none ∧
        (lookupMap current e.1 = none ∨ lookupMap current e.1 = some e.2)) := by
  unfold oldLoopSpec
  cases hnk : lookupMap newCfg e.1 with
  | some w => simp
  | none =>
    dsimp only
    cases hcv : lookupMap current e.1 with
    | none => simp
    | some cv =>
      dsimp only
      by_cases hne : e.2 = cv
      · rw [if_neg (by simp [hne])]
        simp [hne]
      · rw [if_pos (by simp [hne])]
        simp [hne, Ne.symm hne]

/-- C2 (amended): with no nil config values and unique keys, the config diff
succeeds and contains exactly: an append-operation for every key in new and
absent from current, a set-operation for every key in new whose current value
differs, and a delete-operation for every key absent from new and present in
old whose current value either equals the old desired value or is absent
(the delete is skipped only when the key is present in current with a
different value); all other keys produce no operation. -/
theorem diffConfig_threeWay (newCfg old cur : List (String × Option String))
    (hnew : allSomeVals newCfg) (hold : allSomeVals old) (hcur : allSomeVals cur)
    (hnodupNew : (newCfg.map Prod.fst).Nodup) (hnodupOld : (old.map Prod.fst).Nodup) :
    ∃ us, diffConfig newCfg old cur = some us ∧
      (∀ k v, AlterConfig.mk .append k v ∈ us ↔
        lookupMap newCfg k = some v ∧ lookupMap cur k = none) ∧
      (∀ k v, AlterConfig.mk .set k v ∈ us ↔
        lookupMap newCfg k = some v ∧ ∃ cv, lookupMap cur k = some cv ∧ v ≠ cv) ∧
      (∀ k v, AlterConfig.mk .delete k v ∈ us ↔
        lookupMap old k = some v ∧ lookupMap newCfg k = none ∧
          (lookupMap cur k = none ∨ lookupMap cur k = some v)) := by
  refine ⟨_, diffConfig_eq hnew hold hcur, ?_, ?_, ?_⟩
  · intro k v
    rw [List.mem_append, List.mem_flatMap, List.mem_flatMap]
    constructor
    · rintro (⟨e, he, hu⟩ | ⟨e, he, hu⟩)
      · rcases mem_newLoopSpec.mp hu with ⟨hu', hc⟩ | ⟨cv, hu', _⟩
        · rw [AlterConfig.mk.injEq] at hu'
          obtain ⟨_, rfl, rfl⟩ := hu'
          exact ⟨lookupMap_eq_some_of_mem hnodupNew he, hc⟩
        · rw [AlterConfig.mk.injEq] at hu'
          exact absurd hu'.1 (by decide)
      · rw [mem_oldLoopSpec, AlterConfig.mk.injEq] at hu
        exact absurd hu.1.1 (by decide)
    · rintro ⟨hl, hc⟩
      exact Or.inl ⟨(k, v), mem_of_lookupMap hl, mem_newLoopSpec.mpr (Or.inl ⟨rfl, hc⟩)⟩
  · intro k v
    rw [List.mem_append, List.mem_flatMap, List.mem_flatMap]
    constructor
    · rintro (⟨e, he, hu⟩ | ⟨e, he, hu⟩)
      · rcases mem_newLoopSpec.mp hu with ⟨hu', _⟩ | ⟨cv, hu', hc, hne⟩
        · rw [AlterConfig.mk.injEq] at hu'
          exact absurd hu'.1 (by decide)
        · rw [AlterConfig.mk.injEq] at hu'
          obtain ⟨_, rfl, rfl⟩ := hu'
          exact ⟨lookupMap_eq_some_of_mem hnodupNew he, cv, hc, hne⟩
      · rw [mem_oldLoopSpec, AlterConfig.mk.injEq] at hu
        exact absurd hu.1.1 (by decide)
    · rintro ⟨hl, cv, hc, hne⟩
      exact Or.inl ⟨(k, v), mem_of_lookupMap hl,
        mem_newLoopSpec.mpr (Or.inr ⟨cv, rfl, hc, hne⟩)⟩
  · intro k v
    rw [List.mem_append, List.mem_flatMap, List.mem_flatMap]
    constructor
    · rintro (⟨e, he, hu⟩ | ⟨e, he, hu⟩)
      · rcases mem_newLoopSpec.mp hu with ⟨hu', _⟩ | ⟨cv, hu', _⟩
        · rw [AlterConfig.mk.injEq] at hu'
          exact absurd hu'.1 (by decide)
        · rw [AlterConfig.mk.injEq] at hu'
          exact absurd hu'.1 (by decide)
      · rw [mem_oldLoopSpec, AlterConfig.mk.injEq] at hu
        obtain ⟨⟨_, rfl, rfl⟩, hn, hc⟩ := hu
        exact ⟨lookupMap_eq_some_of_mem hnodupOld he, hn, hc⟩
    · rintro ⟨hl, hn, hc⟩
      exact Or.inr ⟨(k, v), mem_of_lookupMap hl,
        mem_oldLoopSpec.mpr ⟨rfl, hn, hc⟩⟩

/-- C2 counterexample: old = `b:"2"`, new = `{}`, current cluster config =
`{}` (the key was removed out of band).  The code still emits the
delete-operation for `b` although the current cluster value does not match
the old desired value (there is no current value at all), contradicting the
claim's "delete only if the current cluster value still matches the old
desired value". -/
theorem diffConfig_threeWay_counterexample :
    diffConfig [] [("b", some "2")] [] =
      some [AlterConfig.mk .delete "b" (some "2")] ∧
    lookupMap ([] : List (String × Option String)) "b" = none := by
  exact ⟨rfl, rfl⟩

/-- Witness for `diffConfig_threeWay` at the end-to-end scenario
old = `a:"1", b:"2", c:"1"`, new = `a:"2", c:"1", d:"3"`,
current = `a:"1", b:"2", c:"1", x:"1"`. -/
theorem diffConfig_threeWay_witness :
    ∃ us, diffConfig
        [("a", some "2"), ("c", some "1"), ("d", some "3")]
        [("a", some "1"), ("b", some "2"), ("c", some "1")]
        [("a", some "1"), ("b", some "2"), ("c", some "1"), ("x", some "1")] = some us ∧
      (∀ k v, AlterConfig.mk .append k v ∈ us ↔
        lookupMap [("a", some "2"), ("c", some "1"), ("d", some "3")] k = some v ∧
        lookupMap [("a", some "1"), ("b", some "2"), ("c", some "1"), ("x", some "1")] k = none) ∧
      (∀ k v, AlterConfig.mk .set k v ∈ us ↔
        lookupMap [("a", some "2"), ("c", some "1"), ("d", some "3")] k = some v ∧
        ∃ cv, lookupMap [("a", some "1"), ("b", some "2"), ("c", some "1"), ("x", some "1")] k = some cv ∧
          v ≠ cv) ∧
      (∀ k v, AlterConfig.mk .delete k v ∈ us ↔
        lookupMap [("a", some "1"), ("b", some "2"), ("c", some "1")] k = some v ∧
        lookupMap [("a", some "2"), ("c", some "1"), ("d", some "3")] k = none ∧
          (lookupMap [("a", some "1"), ("b", some "2"), ("c", some "1"), ("x", some "1")] k = none ∨
           lookupMap [("a", some "1"), ("b", some "2"), ("c", some "1"), ("x", some "1")] k = some v)) :=
  diffConfig_threeWay
    [("a", some "2"), ("c", some "1"), ("d", some "3")]
    [("a", some "1"), ("b", some "2"), ("c", some "1")]
    [("a", some "1"), ("b", some "2"), ("c", some "1"), ("x", some "1")]
    (by decide) (by decide) (by decide) (by decide) (by decide)

/-- The end-to-end config scenario of the specification, evaluated: the diff
is exactly set `a:"2"`, append `d:"3"`, delete `b:"2"`; key `c` (unchanged)
and key `x` (in neither desired config) produce no operation. -/
theorem diffConfig_endToEnd_example :
    diffConfig
        [("a", some "2"), ("c", some "1"), ("d", some "3")]
        [("a", some "1"), ("b", some "2"), ("c", some "1")]
        [("a", some "1"), ("b", some "2"), ("c", some "1"), ("x", some "1")] =
      some [AlterConfig.mk .set "a" (some "2"), AlterConfig.mk .append "d" (some "3"),
        AlterConfig.mk .delete "b" (some "2")] := by
  decide

/-- C10: `diffConfig` is total when every config value pointer is non-nil,
and a nil value reaches the unguarded dereference: on new = `a:nil` with
`a` present in the current cluster config, the comparison `*nv != *cv`
dereferences the nil pointer and the computation aborts (a Go panic). -/
theorem diffConfig_nilPointer :
    (∀ newCfg old cur : List (String × Option String),
      allSomeVals newCfg → allSomeVals old → allSomeVals cur →
        (diffConfig newCfg old cur).isSome = true) ∧
    diffConfig [("a", none)] [] [("a", some "1")] = none := by
  constructor
  · intro newCfg old cur hnew hold hcur
    rw [diffConfig_eq hnew hold hcur]
    rfl
  · rfl

/-- Witness for `diffConfig_nilPointer`: its totality half applied at a
concrete nil-free input. -/
theorem diffConfig_nilPointer_witness :
    (diffConfig [("a", some "1")] [("b", some "2")] []).isSome = true :=
  diffConfig_nilPointer.1 [("a", some "1")] [("b", some "2")] []
    (by decide) (by decide) (by decide)

/-! ## Update command theorems -/

theorem runOps_all_ok {α ε : Type} (ev : α → ε) (out : α → Option String) (xs : List α)
    (h : ∀ x ∈ xs, out x = none) : runOps ev out xs = (xs.map ev, none) := by
  induction xs with
  | nil => rfl
  | cons x rest ih =>
    rw [runOps, h x (List.mem_cons_self x rest),
      ih fun y hy => h y (List.mem_cons_of_mem x hy)]
    rfl

/-- Environment in which every collaborator call succeeds and the cluster
reports a matching topic with 1 partition and replication factor 1. -/
def envAllOk : UpdateEnv :=
  { listTopics := .ok (.found 1 1)
    resolve := .ok "key"
    describeConfigs := .ok []
    alterConfigs := .ok ()
    deleteUser := fun _ => none
    createUser := fun _ => none
    createACLs := fun _ _ => none
    deleteACLs := fun _ _ => none }

/-- `envAllOk` but the cluster reports 5 partitions. -/
def envWrongPartitions : UpdateEnv :=
  { envAllOk with listTopics := .ok (.found 5 1) }

/-- Desired state `t` on cluster `arnA` with no users or config. -/
def tiArnA : TopicInfo :=
  { name := "t", partitions := 1, replicationFactor := 1, clusterArn := "arnA",
    config := [], users := [], deletionPolicy := DeletionPolicy.retain }

/-- The same desired state on cluster `arnB`: only `ClusterArn` changed. -/
def tiArnB : TopicInfo :=
  { name := "t", partitions := 1, replicationFactor := 1, clusterArn := "arnB",
    config := [], users := [], deletionPolicy := DeletionPolicy.retain }

/-- C3 (amended): the update command rejects a rename when the topic under
the new canonical name is reported unknown, and rejects a mismatch between
the cluster-reported partition count (resp. replication factor) and the new
desired value, each with an empty mutation trace — no config alteration, no
user create/delete, no ACL change.  (`ClusterArn` changes are not themselves
checked; see the counterexample.) -/
theorem cmdUpdate_immutableChecks (env : UpdateEnv) (old new : TopicInfo) (p r : Nat) :
    (env.listTopics = .ok .errUnknown → old.name ≠ new.name →
      runUpdate env old new = ⟨[], some "cannot update Name and ClusterArn properties"⟩) ∧
    (env.listTopics = .ok (.found p r) → p ≠ new.partitions →
      runUpdate env old new = ⟨[], some "Cannot update Partitions"⟩) ∧
    (env.listTopics = .ok (.found p r) → p = new.partitions → r ≠ new.replicationFactor →
      runUpdate env old new = ⟨[], some "Cannot update ReplicationFactor"⟩) := by
  refine ⟨?_, ?_, ?_⟩
  · intro h1 h2
    rw [runUpdate, h1]
    simp [h2]
  · intro h1 h2
    rw [runUpdate, h1]
    simp [topicCounts, h2]
  · intro h1 h2 h3
    rw [runUpdate, h1]
    simp [topicCounts, h2, h3]

/-- C3 counterexample: `old` and `new` differ only in `ClusterArn`, the
cluster (still addressed through the old Arn) reports a matching topic, and
the update completes successfully — no fatal error rejects the `ClusterArn`
change. -/
theorem cmdUpdate_immutableChecks_counterexample :
    runUpdate envAllOk tiArnA tiArnB = ⟨[], none⟩ ∧
    tiArnA.clusterArn ≠ tiArnB.clusterArn ∧
    tiArnA.name = tiArnB.name ∧ tiArnA.partitions = tiArnB.partitions ∧
    tiArnA.replicationFactor = tiArnB.replicationFactor ∧
    tiArnA.config = tiArnB.config ∧ tiArnA.users = tiArnB.users := by
  exact ⟨rfl, by decide, rfl, rfl, rfl, rfl, rfl⟩

/-- Witness for `cmdUpdate_immutableChecks`: the partition-mismatch branch at
a cluster reporting 5 partitions against a desired 1. -/
theorem cmdUpdate_immutableChecks_witness :
    runUpdate envWrongPartitions tiArnA tiArnA = ⟨[], some "Cannot update Partitions"⟩ :=
  (cmdUpdate_immutableChecks envWrongPartitions tiArnA tiArnA 5 1).2.1 rfl (by decide)

/-- C4: when the lookup and partition checks pass and every collaborator
call succeeds, the update applies its mutations in strict order: the config
alteration (if any), then all `DeletedUsers` deletions, then the settling
delay only if at least one user was deleted, then all `AddedUsers`
creations, then all `AddedPermissions` grants, then all
`DeletedPermissions` revokes. -/
theorem cmdUpdate_strictOrder (env : UpdateEnv) (old new : TopicInfo)
    (cur : List (String × Option String)) (cdiff : List AlterConfig) (k : String)
    (hlist : env.listTopics = .ok (.found new.partitions new.replicationFactor))
    (hres : env.resolve = .ok k)
    (hdesc : env.describeConfigs = .ok cur)
    (hdiff : diffConfig new.config old.config cur = some cdiff)
    (halter : env.alterConfigs = .ok ())
    (hdel : ∀ u, env.deleteUser u = none)
    (hcre : ∀ u, env.createUser u = none)
    (hca : ∀ s ps, env.createACLs s ps = none)
    (hda : ∀ s ps, env.deleteACLs s ps = none) :
    runUpdate env old new =
      ⟨(if cdiff.isEmpty then [] else [UpdateEvent.alterConfigs cdiff]) ++
        ((diffUsers old new).deletedUsers.map UpdateEvent.deleteUser ++
          ((if (diffUsers old new).deletedUsers.isEmpty then [] else [UpdateEvent.delay]) ++
            ((diffUsers old new).addedUsers.map UpdateEvent.createUser ++
              ((diffUsers old new).addedPermissions.map (fun p => UpdateEvent.createACLs p.1 p.2) ++
                (diffUsers old new).deletedPermissions.map
                  (fun p => UpdateEvent.deleteACLs p.1 p.2))))),
        none⟩ := by
  have h1 := runOps_all_ok UpdateEvent.deleteUser env.deleteUser
    (diffUsers old new).deletedUsers (fun u _ => hdel u)
  have h2 := runOps_all_ok UpdateEvent.createUser env.createUser
    (diffUsers old new).addedUsers (fun u _ => hcre u)
  have h3 := runOps_all_ok (fun p => UpdateEvent.createACLs p.1 p.2)
    (fun p => env.createACLs p.1 p.2) (diffUsers old new).addedPermissions
    (fun p _ => hca p.1 p.2)
  have h4 := runOps_all_ok (fun p => UpdateEvent.deleteACLs p.1 p.2)
    (fun p => env.deleteACLs p.1 p.2) (diffUsers old new).deletedPermissions
    (fun p _ => hda p.1 p.2)
  rw [runUpdate, hlist]
  dsimp only [topicCounts]
  rw [if_neg (by simp), if_neg (by simp), hres]
  dsimp only
  rw [hdesc]
  dsimp only
  rw [hdiff]
  dsimp only
  rw [halter]
  by_cases hce : cdiff.isEmpty <;>
    simp [hce, h1, h2, h3, h4, List.append_assoc]

/-- Old desired state for the update-order witness: users alice and bob,
empty config. -/
def tiC4old : TopicInfo :=
  { name := "t", partitions := 1, replicationFactor := 1, clusterArn := "arnA",
    config := [],
    users := [User.mk "alice" "1" [Permission.read], User.mk "bob" "2" [Permission.read]],
    deletionPolicy := DeletionPolicy.retain }

/-- New desired state for the update-order witness: alice removed, bob's
permissions replaced, carol added, config key `a` added. -/
def tiC4new : TopicInfo :=
  { name := "t", partitions := 1, replicationFactor := 1, clusterArn := "arnA",
    config := [("a", some "2")],
    users := [User.mk "bob" "2" [Permission.write], User.mk "carol" "3" [Permission.read]],
    deletionPolicy := DeletionPolicy.retain }

/-- Witness for `cmdUpdate_strictOrder` at an update with a config addition,
a deleted user, a permission replacement and an added user. -/
theorem cmdUpdate_strictOrder_witness :
    runUpdate envAllOk tiC4old tiC4new =
      ⟨(if ([AlterConfig.mk AlterOp.append "a" (some "2")] : List AlterConfig).isEmpty then []
          else [UpdateEvent.alterConfigs [AlterConfig.mk AlterOp.append "a" (some "2")]]) ++
        ((diffUsers tiC4old tiC4new).deletedUsers.map UpdateEvent.deleteUser ++
          ((if (diffUsers tiC4old tiC4new).deletedUsers.isEmpty then []
              else [UpdateEvent.delay]) ++
            ((diffUsers tiC4old tiC4new).addedUsers.map UpdateEvent.createUser ++
              ((diffUsers tiC4old tiC4new).addedPermissions.map
                  (fun p => UpdateEvent.createACLs p.1 p.2) ++
                (diffUsers tiC4old tiC4new).deletedPermissions.map
                  (fun p => UpdateEvent.deleteACLs p.1 p.2))))),
        none⟩ :=
  cmdUpdate_strictOrder envAllOk tiC4old tiC4new []
    [AlterConfig.mk AlterOp.append "a" (some "2")] "key"
    rfl rfl rfl (by decide) rfl (fun _ => rfl) (fun _ => rfl)
    (fun _ _ => rfl) (fun _ _ => rfl)

/-! ## Delete command theorems -/

/-- C5: when the key resolver succeeds and every `DeleteUser` call succeeds,
a delete with `DeletionPolicy = Retain` deletes every user in the desired
state, issues no `DeleteTopics` call and returns success; with
`DeletionPolicy = Delete` the topic itself is deleted, and an unknown-topic
response is absorbed as already-deleted success. -/
theorem cmdDelete_retainPolicy (env : DeleteEnv) (info : TopicInfo) (k : String)
    (hres : env.resolve = .ok k)
    (hdel : ∀ u, env.deleteUser u = none) :
    (info.deletionPolicy = DeletionPolicy.retain →
      runDelete env info = ⟨info.users.map DeleteEvent.deleteUser, none⟩ ∧
      DeleteEvent.deleteTopics ∉ (runDelete env info).trace) ∧
    (info.deletionPolicy = DeletionPolicy.delete →
      env.deleteTopics = .ok DeleteTopicsResponse.errUnknown →
      runDelete env info =
        ⟨info.users.map DeleteEvent.deleteUser ++ [DeleteEvent.deleteTopics], none⟩) := by
  have hops := runOps_all_ok DeleteEvent.deleteUser env.deleteUser info.users
    (fun u _ => hdel u)
  constructor
  · intro hpol
    have hrun : runDelete env info = ⟨info.users.map DeleteEvent.deleteUser, none⟩ := by
      rw [runDelete, hres]
      dsimp only
      rw [hops]
      simp [hpol]
    refine ⟨hrun, ?_⟩
    rw [hrun]
    simp
  · intro hpol hdt
    rw [runDelete, hres]
    dsimp only
    rw [hops]
    simp [hpol, hdt]

/-- Desired state with two users and `DeletionPolicy = Retain`. -/
def tiRetain : TopicInfo :=
  { name := "t", partitions := 1, replicationFactor := 1, clusterArn := "arnA",
    config := [],
    users := [User.mk "alice" "1" [Permission.read], User.mk "bob" "2" [Permission.write]],
    deletionPolicy := DeletionPolicy.retain }

/-- All-success delete environment whose `DeleteTopics` response is
unknown-topic. -/
def delEnvOk : DeleteEnv :=
  { resolve := .ok "key"
    deleteUser := fun _ => none
    deleteTopics := .ok DeleteTopicsResponse.errUnknown }

/-- Witness for `cmdDelete_retainPolicy` at a two-user Retain topic. -/
theorem cmdDelete_retainPolicy_witness :
    runDelete delEnvOk tiRetain = ⟨tiRetain.users.map DeleteEvent.deleteUser, none⟩ ∧
    DeleteEvent.deleteTopics ∉ (runDelete delEnvOk tiRetain).trace :=
  (cmdDelete_retainPolicy delEnvOk tiRetain "key" rfl (fun _ => rfl)).1 rfl

/-! ## Naming theorems -/

/-- C6: the canonical topic name is `rawName ++ "-" ++ shortHash(stackID)`
and the canonical username is `"AmazonMSK_" ++ rawUsername ++ "_" ++
shortHash(stackID)`, where the short hash is the first 8 characters of the
unpadded standard base32 encoding of the SHA-256 digest of the stack id;
identical inputs always produce identical names. -/
theorem naming_canonical (name username stackID s1 s2 : String) :
    canonicalTopicName name (shortStackID stackID) =
      name ++ "-" ++ String.mk ((base32Encode (sha256 (utf8Bytes stackID))).take 8) ∧
    canonicalUsername username (shortStackID stackID) =
      "AmazonMSK_" ++ username ++ "_" ++
        String.mk ((base32Encode (sha256 (utf8Bytes stackID))).take 8) ∧
    (s1 = s2 →
      canonicalTopicName name (shortStackID s1) = canonicalTopicName name (shortStackID s2) ∧
      canonicalUsername username (shortStackID s1) =
        canonicalUsername username (shortStackID s2)) := by
  refine ⟨rfl, rfl, ?_⟩
  rintro rfl
  exact ⟨rfl, rfl⟩

/-- Witness for `naming_canonical` at raw name `t`, username `u`, stack id
`test`. -/
theorem naming_canonical_witness :
    canonicalTopicName "t" (shortStackID "test") =
      "t" ++ "-" ++ String.mk ((base32Encode (sha256 (utf8Bytes "test"))).take 8) ∧
    canonicalTopicName "t" (shortStackID "test") =
      canonicalTopicName "t" (shortStackID "test") :=
  ⟨(naming_canonical "t" "u" "test" "test" "test").1,
   ((naming_canonical "t" "u" "test" "test" "test").2.2 rfl).1⟩

set_option maxRecDepth 4096 in
/-- Sanity value: the short stack hash of `"test"` (cross-checked against
`sha256` + unpadded base32 reference implementations). -/
theorem shortStackID_test_value : shortStackID "test" = "T6DNBAMI" := by
  decide

/-! ## KMS key resolver theorems -/

/-- C7: with zero users the resolver returns the empty key without calling
`DescribeCluster`; with at least one user it calls `DescribeCluster`, and a
missing `TR-KMS-KEY` tag is a fatal error whose message names the required
tag. -/
theorem kmsResolver_behavior (env : ResolverEnv) (info : TopicInfo)
    (tags : List (String × String)) :
    (info.users = [] → kmsKeyResolve env info = (false, .ok "")) ∧
    (info.users ≠ [] → env.describeCluster = .ok tags →
      lookupMap tags TagKmsKey = none →
      kmsKeyResolve env info = (true, .error kmsKeyMissingMsg)) := by
  constructor
  · intro h
    simp [kmsKeyResolve, h]
  · intro h hd hl
    have hlen : info.users.length > 0 := by
      cases hu : info.users with
      | nil => exact absurd hu h
      | cons a l => simp [hu]
    simp [kmsKeyResolve, hlen, hd, hl]

/-- Desired state with one user (for the resolver witness). -/
def tiOneUser : TopicInfo :=
  { name := "t", partitions := 1, replicationFactor := 1, clusterArn := "arnA",
    config := [], users := [User.mk "alice" "1" [Permission.read]],
    deletionPolicy := DeletionPolicy.retain }

/-- Witness for `kmsResolver_behavior`: a cluster whose tags lack
`TR-KMS-KEY`. -/
theorem kmsResolver_behavior_witness :
    kmsKeyResolve { describeCluster := .ok [("Team", "x")] } tiOneUser =
      (true, .error kmsKeyMissingMsg) :=
  (kmsResolver_behavior { describeCluster := .ok [("Team", "x")] } tiOneUser
    [("Team", "x")]).2 (by decide) rfl rfl

/-! ## Validation theorems -/

/-- C8: whenever the schema rejects the property map, `NewTopicInfo` returns
exactly one error whose message is the space-joined concatenation of every
violation; on the empty map that single message lists all five missing
required fields, in schema order. -/
theorem newTopicInfo_singleError (props : List (String × JVal))
    (h : validateTopicInfo props ≠ []) :
    NewTopicInfo props = .error (String.intercalate " " (validateTopicInfo props)) ∧
    NewTopicInfo [] = .error ("(root): ServiceToken is required " ++
      "(root): Name is required (root): Partitions is required " ++
      "(root): ReplicationFactor is required (root): ClusterArn is required") := by
  constructor
  · have hne : (validateTopicInfo props).isEmpty = false := by
      cases hv : validateTopicInfo props with
      | nil => exact absurd hv h
      | cons a l => rfl
    simp [NewTopicInfo, hne]
  · rfl

/-- Witness for `newTopicInfo_singleError` at the empty property map. -/
theorem newTopicInfo_singleError_witness :
    NewTopicInfo [] = .error (String.intercalate " " (validateTopicInfo [])) :=
  (newTopicInfo_singleError [] (by decide)).1

/-! ## Create handler theorems -/

theorem cmdCreateRun_ok {env : CreateEnv} {ti : TopicInfo} {stackID : String}
    {pr : String × String} (h : cmdCreateRun env ti stackID = .ok pr) :
    pr = (canonicalTopicName ti.name (shortStackID stackID), shortStackID stackID) := by
  unfold cmdCreateRun at h
  cases hres : env.resolve with
  | error e => rw [hres] at h; cases h
  | ok k =>
    rw [hres] at h
    dsimp only at h
    cases hct : env.createTopic with
    | errOther msg => rw [hct] at h; cases h
    | ok =>
      rw [hct] at h
      dsimp only at h
      cases hfe : firstError env.createUser ti.users with
      | some e => rw [hfe] at h; cases h
      | none => rw [hfe] at h; cases h; rfl
    | errAlreadyExists =>
      rw [hct] at h
      dsimp only at h
      cases hfe : firstError env.createUser ti.users with
      | some e => rw [hfe] at h; cases h
      | none => rw [hfe] at h; cases h; rfl

/-- C9: on every failure path of `Handler.create` the response's
`PhysicalResourceID` is the freshly generated identifier; on success it is
the canonical topic name and the output properties carry `UsernameSuffix` =
the short stack hash. -/
theorem handlerCreate_physicalResourceID (env : CreateEnv) (props : List (String × JVal))
    (stackID : String) :
    ((handlerCreate env props stackID).2.2 ≠ none →
      (handlerCreate env props stackID).1 = env.freshID) ∧
    ((handlerCreate env props stackID).2.2 = none →
      ∃ ti, NewTopicInfo props = .ok ti ∧
        (handlerCreate env props stackID).1 =
          canonicalTopicName ti.name (shortStackID stackID) ∧
        ("UsernameSuffix", shortStackID stackID) ∈ (handlerCreate env props stackID).2.1) := by
  unfold handlerCreate
  cases hti : NewTopicInfo props with
  | error e => simp
  | ok ti =>
    dsimp only
    cases hcl : env.newClient with
    | error e => simp
    | ok u =>
      dsimp only
      cases hrun : cmdCreateRun env ti stackID with
      | error e => simp
      | ok pr =>
        have hpr := cmdCreateRun_ok hrun
        subst hpr
        dsimp only
        constructor
        · intro hcontra
          exact absurd rfl hcontra
        · intro _
          exact ⟨ti, rfl, rfl, List.mem_singleton.mpr rfl⟩

/-- A minimal valid property map. -/
def c9props : List (String × JVal) :=
  [("ServiceToken", JVal.str "st"), ("Name", JVal.str "topic-a"),
   ("Partitions", JVal.str "1"), ("ReplicationFactor", JVal.str "3"),
   ("ClusterArn", JVal.str "arn")]

/-- All-success create environment with a pre-generated UUID. -/
def c9env : CreateEnv :=
  { freshID := "uuid-1234"
    newClient := .ok ()
    resolve := .ok ""
    createTopic := CreateTopicOutcome.ok
    createUser := fun _ => none }

set_option maxRecDepth 8192 in
/-- Witness for `handlerCreate_physicalResourceID`: the success branch at a
minimal valid property map. -/
theorem handlerCreate_physicalResourceID_witness :
    ∃ ti, NewTopicInfo c9props = .ok ti ∧
      (handlerCreate c9env c9props "test").1 =
        canonicalTopicName ti.name (shortStackID "test") ∧
      ("UsernameSuffix", shortStackID "test") ∈ (handlerCreate c9env c9props "test").2.1 :=
  (handlerCreate_physicalResourceID c9env c9props "test").2 (by decide)

end MskTr
